import Mathlib

/-!
# Verification of the charging-provider-frontend currency/grouping core

Shallow embedding of the pure core of `src/components/PriceComparison.tsx` and
`src/components/PriceTable.tsx`: currency resolution and conversion to the
reference currency (EUR), grouping of price records by country and provider,
the single-plan comparison pipeline (filter, convert, stable sort), and the
household-price CSV dataset loader.

JavaScript numbers are modelled as exact rationals (`ℚ`); `parseFloat` results
are modelled by `JsNum`, which, in addition to finite rationals, represents the
IEEE special values `NaN` and `±Infinity` that `parseFloat` can produce for
inputs such as `"abc"` or `"Infinity"`.  String operations (`trim`,
`toUpperCase`) are modelled over Unicode characters with ASCII case mapping,
which is faithful for every label occurring in the data.
-/

/-- Characters removed by JavaScript `String.prototype.trim` (the white-space
and line-terminator characters relevant to the embedded data). -/
def isJsWhitespace (c : Char) : Bool :=
  c == ' ' || c == '\t' || c == '\n' || c == '\r' || c == '\x0b' || c == '\x0c' || c == ' '

/-- Model of JavaScript `String.prototype.trim`: drop white space from both ends. -/
def jsTrim (s : String) : String :=
  ⟨((s.toList.dropWhile isJsWhitespace).reverse.dropWhile isJsWhitespace).reverse⟩

/-- ASCII upper-casing of one character, as JavaScript `toUpperCase` acts on
the ASCII range (characters outside `a`–`z`, such as `€`, are unchanged). -/
def asciiUpper (c : Char) : Char :=
  if 97 ≤ c.toNat ∧ c.toNat ≤ 122 then Char.ofNat (c.toNat - 32) else c

/-- Model of JavaScript `String.prototype.toUpperCase` restricted to ASCII case
mapping. -/
def jsToUpper (s : String) : String :=
  ⟨s.toList.map asciiUpper⟩

/-- A price record as returned by the backend
(`interface PriceEntry` in both components). -/
structure PriceEntry where
  _id : String
  country : String
  currency : String
  provider : String
  pricing_model_name : String
  price_kWh : ℚ
  monthly_subscription_price : Option ℚ
  yearly_subscription_price : Option ℚ
deriving DecidableEq, Repr

/-- The exchange-rate table (`interface ExchangeRates`): a string-keyed object,
modelled as an association list with JavaScript-object lookup. -/
abbrev ExchangeRates := List (String × ℚ)

namespace PriceComparison

/-- The symbol→code table of `convertToEUR` in `PriceComparison.tsx`
(lines 104–109); this copy includes the `"kr" → "SEK"` special case. -/
def currencyMap : List (String × String) :=
  [("£", "GBP"), ("$", "USD"), ("€", "EUR"), ("kr", "SEK")]

/-- `convertToEUR` of `PriceComparison.tsx` (lines 100–115).  A rate of `0` is
falsy in JavaScript, so `if (!rate) return price` also fires for a zero rate. -/
def convertToEUR (price : ℚ) (currency : String) (rates : ExchangeRates) : ℚ :=
  let cleanCurrency := jsTrim currency
  if cleanCurrency = "€" ∨ jsToUpper cleanCurrency = "EUR" then price
  else
    let currencyCode := (currencyMap.lookup cleanCurrency).getD (jsToUpper cleanCurrency)
    match rates.lookup currencyCode with
    | none => price
    | some rate => if rate = 0 then price else price / rate

/-- The `currencyCode` computation of `convertToEUR` in `PriceComparison.tsx`
(lines 101 and 111) as a standalone resolver. -/
def resolveCurrency (currency : String) : String :=
  let cleanCurrency := jsTrim currency
  (currencyMap.lookup cleanCurrency).getD (jsToUpper cleanCurrency)

theorem convertToEUR_comparison_eq (price : ℚ) (currency : String) (rates : ExchangeRates) :
    convertToEUR price currency rates =
      if jsTrim currency = "€" ∨ jsToUpper (jsTrim currency) = "EUR" then price
      else
        match rates.lookup (resolveCurrency currency) with
        | none => price
        | some rate => if rate = 0 then price else price / rate := rfl

end PriceComparison

namespace PriceTable

/-- The symbol→code table of `convertToEUR` in `PriceTable.tsx` (lines 35–39);
this copy has no entry for `"kr"`. -/
def currencyMap : List (String × String) :=
  [("£", "GBP"), ("$", "USD"), ("€", "EUR")]

/-- `convertToEUR` of `PriceTable.tsx` (lines 30–45). -/
def convertToEUR (price : ℚ) (currency : String) (rates : ExchangeRates) : ℚ :=
  let cleanCurrency := jsTrim currency
  if cleanCurrency = "€" ∨ jsToUpper cleanCurrency = "EUR" then price
  else
    let currencyCode := (currencyMap.lookup cleanCurrency).getD (jsToUpper cleanCurrency)
    match rates.lookup currencyCode with
    | none => price
    | some rate => if rate = 0 then price else price / rate

/-- The `currencyCode` computation of `convertToEUR` in `PriceTable.tsx`
(lines 31 and 41) as a standalone resolver. -/
def resolveCurrency (currency : String) : String :=
  let cleanCurrency := jsTrim currency
  (currencyMap.lookup cleanCurrency).getD (jsToUpper cleanCurrency)

theorem convertToEUR_table_eq (price : ℚ) (currency : String) (rates : ExchangeRates) :
    convertToEUR price currency rates =
      if jsTrim currency = "€" ∨ jsToUpper (jsTrim currency) = "EUR" then price
      else
        match rates.lookup (resolveCurrency currency) with
        | none => price
        | some rate => if rate = 0 then price else price / rate := rfl

end PriceTable

/-! ## Auxiliary facts about the reference-currency check -/

theorem asciiUpper_eq_euro {c : Char} : asciiUpper c = '€' → c = '€' := by
  unfold asciiUpper
  split
  case isTrue hb =>
    intro h
    exfalso
    obtain ⟨h1, h2⟩ := hb
    generalize hn : c.toNat = n at h1 h2 h
    interval_cases n <;> exact absurd h (by decide)
  case isFalse hb => exact id

theorem jsToUpper_eq_euro {s : String} (h : jsToUpper s = "€") : s = "€" := by
  obtain ⟨l⟩ := s
  have hd : l.map asciiUpper = ['€'] := congrArg String.data h
  cases l with
  | nil => simp at hd
  | cons c t =>
    cases t with
    | nil =>
      have h1 : asciiUpper c = '€' := by simpa using hd
      rw [show c = '€' from asciiUpper_eq_euro h1]
    | cons d t2 => simp at hd

/-- Both copies of `convertToEUR` return `price` unchanged whenever the trimmed
label passes the reference-currency short-circuit check. -/
theorem convertToEUR_ref_aux (price : ℚ) (currency : String) (rates : ExchangeRates)
    (h : jsToUpper (jsTrim currency) = "€" ∨ jsToUpper (jsTrim currency) = "EUR") :
    PriceComparison.convertToEUR price currency rates = price ∧
    PriceTable.convertToEUR price currency rates = price := by
  have hcond : jsTrim currency = "€" ∨ jsToUpper (jsTrim currency) = "EUR" := by
    rcases h with h | h
    · exact Or.inl (jsToUpper_eq_euro h)
    · exact Or.inr h
  rw [PriceComparison.convertToEUR_comparison_eq, PriceTable.convertToEUR_table_eq, if_pos hcond, if_pos hcond]
  exact ⟨rfl, rfl⟩

/-- A missing rate for the resolved code makes `convertToEUR` return `price`,
for either copy (parameterised by the resolver and the symbol table). -/
theorem convertToEUR_missing_aux (price : ℚ) (currency : String) (rates : ExchangeRates)
    (hc : rates.lookup (PriceComparison.resolveCurrency currency) = none)
    (ht : rates.lookup (PriceTable.resolveCurrency currency) = none) :
    PriceComparison.convertToEUR price currency rates = price ∧
    PriceTable.convertToEUR price currency rates = price := by
  rw [PriceComparison.convertToEUR_comparison_eq, PriceTable.convertToEUR_table_eq]
  constructor
  · split
    · rfl
    · rw [hc]
  · split
    · rfl
    · rw [ht]

/-- A zero rate is falsy in JavaScript, so `if (!rate) return price` fires and
`convertToEUR` returns `price`, for either copy. -/
theorem convertToEUR_zero_aux (price : ℚ) (currency : String) (rates : ExchangeRates)
    (hc : rates.lookup (PriceComparison.resolveCurrency currency) = some 0)
    (ht : rates.lookup (PriceTable.resolveCurrency currency) = some 0) :
    PriceComparison.convertToEUR price currency rates = price ∧
    PriceTable.convertToEUR price currency rates = price := by
  rw [PriceComparison.convertToEUR_comparison_eq, PriceTable.convertToEUR_table_eq]
  constructor
  · split
    · rfl
    · rw [hc]
      show (if (0 : ℚ) = 0 then price else price / 0) = price
      simp
  · split
    · rfl
    · rw [ht]
      show (if (0 : ℚ) = 0 then price else price / 0) = price
      simp

/-! ## Claim theorems: currency conversion -/

/-- C1: if the resolved code of the raw currency label is absent from the
exchange-rate table, `convertToEUR` (both the `PriceComparison.tsx` and the
`PriceTable.tsx` copy) returns the original amount unchanged; being a total
function, it never fails. -/
theorem convertToEUR_missing_rate_fallback (price : ℚ) (currency : String)
    (rates : ExchangeRates) :
    (rates.lookup (PriceComparison.resolveCurrency currency) = none →
      PriceComparison.convertToEUR price currency rates = price) ∧
    (rates.lookup (PriceTable.resolveCurrency currency) = none →
      PriceTable.convertToEUR price currency rates = price) := by
  constructor
  · intro hc
    rw [PriceComparison.convertToEUR_comparison_eq]
    split
    · rfl
    · rw [hc]
  · intro ht
    rw [PriceTable.convertToEUR_table_eq]
    split
    · rfl
    · rw [ht]

theorem convertToEUR_missing_rate_fallback_witness :
    PriceComparison.convertToEUR 7 "CHF" [] = 7 ∧
    PriceTable.convertToEUR 7 "CHF" [] = 7 :=
  ⟨(convertToEUR_missing_rate_fallback 7 "CHF" []).1 rfl,
   (convertToEUR_missing_rate_fallback 7 "CHF" []).2 rfl⟩

/-- C2: a raw label that, after trimming and ignoring case, equals the
reference symbol `€` or the ISO code `EUR` short-circuits both copies of
`convertToEUR` to the identity, for any rate table. -/
theorem convertToEUR_reference_identity (price : ℚ) (currency : String)
    (rates : ExchangeRates)
    (h : jsToUpper (jsTrim currency) = "€" ∨ jsToUpper (jsTrim currency) = "EUR") :
    PriceComparison.convertToEUR price currency rates = price ∧
    PriceTable.convertToEUR price currency rates = price :=
  convertToEUR_ref_aux price currency rates h

theorem convertToEUR_reference_identity_witness :
    PriceComparison.convertToEUR 3 " eur " [("EUR", 2)] = 3 ∧
    PriceTable.convertToEUR 3 " eur " [("EUR", 2)] = 3 :=
  convertToEUR_reference_identity 3 " eur " [("EUR", 2)] (Or.inr (by decide))

/-- C10: a zero rate for the resolved code of a non-reference label is falsy
in JavaScript, so both copies of `convertToEUR` treat it like a missing rate
and return the original amount, never dividing by zero. -/
theorem convertToEUR_zero_rate_fallback (price : ℚ) (currency : String)
    (rates : ExchangeRates)
    (href : ¬(jsTrim currency = "€" ∨ jsToUpper (jsTrim currency) = "EUR")) :
    (rates.lookup (PriceComparison.resolveCurrency currency) = some 0 →
      PriceComparison.convertToEUR price currency rates = price) ∧
    (rates.lookup (PriceTable.resolveCurrency currency) = some 0 →
      PriceTable.convertToEUR price currency rates = price) := by
  constructor
  · intro hc
    rw [PriceComparison.convertToEUR_comparison_eq, if_neg href, hc]
    show (if (0 : ℚ) = 0 then price else price / 0) = price
    simp
  · intro ht
    rw [PriceTable.convertToEUR_table_eq, if_neg href, ht]
    show (if (0 : ℚ) = 0 then price else price / 0) = price
    simp

theorem convertToEUR_zero_rate_fallback_witness :
    PriceComparison.convertToEUR 9 "SEK" [("SEK", 0)] = 9 ∧
    PriceTable.convertToEUR 9 "SEK" [("SEK", 0)] = 9 :=
  ⟨(convertToEUR_zero_rate_fallback 9 "SEK" [("SEK", 0)] (by decide)).1 (by decide),
   (convertToEUR_zero_rate_fallback 9 "SEK" [("SEK", 0)] (by decide)).2 (by decide)⟩

/-- C3 (counterexample): the claim quantifies over *every* code, but the code
`"EUR"` hits the reference-currency short-circuit, so with the singleton table
`{EUR: 2}` the amount `10` is returned unchanged instead of `10 / 2 = 5`. -/
theorem convertToEUR_singleton_eur_counterexample :
    PriceComparison.convertToEUR 10 "EUR" [("EUR", 2)] = 10 ∧
    (10 : ℚ) ≠ 10 / 2 := by
  constructor
  · decide
  · norm_num

/-- C3 (amended): for every nonzero rate and every code that does not pass the
reference-currency check and is a fixed point of currency resolution (it is
neither a mapped symbol nor changed by upper-casing), `convertToEUR` of
`PriceComparison.tsx` on the singleton table `{code: rate}` returns exactly
`amount / rate`. -/
theorem convertToEUR_singleton_divides (amount : ℚ) (code : String) (rate : ℚ)
    (hrate : rate ≠ 0)
    (href : ¬(jsTrim code = "€" ∨ jsToUpper (jsTrim code) = "EUR"))
    (hfix : PriceComparison.resolveCurrency code = code) :
    PriceComparison.convertToEUR amount code [(code, rate)] = amount / rate := by
  rw [PriceComparison.convertToEUR_comparison_eq, if_neg href, hfix]
  rw [show (([(code, rate)] : ExchangeRates).lookup code) = some rate by
    simp [List.lookup]]
  show (if rate = 0 then amount else amount / rate) = amount / rate
  rw [if_neg hrate]

theorem convertToEUR_singleton_divides_witness :
    PriceComparison.convertToEUR 10 "USD" [("USD", 2)] = 10 / 2 :=
  convertToEUR_singleton_divides 10 "USD" 2 (by norm_num) (by decide) (by decide)

/-- C4 (counterexample): the `convertToEUR` copy in `PriceTable.tsx` has no
`"kr"` entry in its symbol table, so `"kr"` is upper-cased to `"KR"`, the SEK
rate is not consulted, and the amount is returned unchanged instead of being
divided by the SEK rate. -/
theorem resolveCurrency_kr_counterexample :
    PriceTable.resolveCurrency "kr" = "KR" ∧
    "KR" ≠ "SEK" ∧
    PriceTable.convertToEUR 10 "kr" [("SEK", 2)] = 10 ∧
    PriceComparison.convertToEUR 10 "kr" [("SEK", 2)] ≠ 10 := by
  refine ⟨by decide, by decide, by decide, ?_⟩
  have h : PriceComparison.convertToEUR 10 "kr" [("SEK", 2)] = 10 / 2 := by
    rw [PriceComparison.convertToEUR_comparison_eq, if_neg (by decide),
      show PriceComparison.resolveCurrency "kr" = "SEK" by decide,
      show (([("SEK", (2 : ℚ))] : ExchangeRates).lookup "SEK") = some 2 by
        simp [List.lookup]]
    show (if (2 : ℚ) = 0 then 10 else 10 / 2) = 10 / 2
    norm_num
  rw [h]
  norm_num

/-- C4 (amended): symbol resolution happens before generic upper-casing, and in
`PriceComparison.tsx` the table maps `"kr"` to `"SEK"`, so `"  £ "` resolves to
`"GBP"`, `"kr"` to `"SEK"`, `"eur"` to the reference code, `"XYZ"` passes
through upper-cased, and converting with label `"kr"` divides by the SEK rate;
the `PriceTable.tsx` copy, however, lacks the `"kr"` entry and resolves `"kr"`
to `"KR"`. -/
theorem resolveCurrency_symbol_table :
    PriceComparison.resolveCurrency "  £ " = "GBP" ∧
    PriceComparison.resolveCurrency "kr" = "SEK" ∧
    PriceComparison.resolveCurrency "XYZ" = "XYZ" ∧
    (∀ (p : ℚ) (rates : ExchangeRates), PriceComparison.convertToEUR p "eur" rates = p) ∧
    (∀ (p rate : ℚ), rate ≠ 0 →
      PriceComparison.convertToEUR p "kr" [("SEK", rate)] = p / rate) ∧
    PriceTable.resolveCurrency "kr" = "KR" := by
  refine ⟨by decide, by decide, by decide, ?_, ?_, by decide⟩
  · intro p rates
    exact (convertToEUR_ref_aux p "eur" rates (Or.inr (by decide))).1
  · intro p rate hrate
    rw [PriceComparison.convertToEUR_comparison_eq, if_neg (by decide),
      show PriceComparison.resolveCurrency "kr" = "SEK" by decide,
      show (([("SEK", rate)] : ExchangeRates).lookup "SEK") = some rate by
        simp [List.lookup]]
    show (if rate = 0 then p else p / rate) = p / rate
    rw [if_neg hrate]

theorem resolveCurrency_symbol_table_witness :
    PriceComparison.convertToEUR 10 "kr" [("SEK", 2)] = 10 / 2 ∧
    PriceComparison.convertToEUR 4 "eur" [] = 4 :=
  ⟨resolveCurrency_symbol_table.2.2.2.2.1 10 2 (by norm_num),
   resolveCurrency_symbol_table.2.2.2.1 4 []⟩

/-! ## Grouping by country and provider (`groupByProvider`, `PriceTable.tsx` 48–63) -/

/-- One group produced by `groupByProvider`: the value
`{ country, provider, models }` stored in the `grouped` record. -/
structure ProviderGroup where
  country : String
  provider : String
  models : List PriceEntry
deriving DecidableEq, Repr

/-- The grouping key `` `${entry.country}-${entry.provider}` `` computed at
`PriceTable.tsx` line 52. -/
def groupKey (e : PriceEntry) : String := e.country ++ "-" ++ e.provider

/-- The key under which a group is stored in the `grouped` record. -/
def ProviderGroup.key (g : ProviderGroup) : String := g.country ++ "-" ++ g.provider

/-- One iteration of the `forEach` loop of `groupByProvider`: find the group
with `entry`'s key (creating it from `entry`'s fields if absent) and push
`entry` onto its `models` if fewer than 4 are stored.  The accumulator list
models the JavaScript object in insertion order, faithful because every key
contains `"-"` and hence is never an array index, so `Object.values` returns
values in key-insertion order. -/
def insertEntry : List ProviderGroup → PriceEntry → List ProviderGroup
  | [], e => [{ country := e.country, provider := e.provider, models := [e] }]
  | g :: gs, e =>
    if g.key = groupKey e then
      (if g.models.length < 4 then { g with models := g.models ++ [e] } else g) :: gs
    else
      g :: insertEntry gs e

/-- `groupByProvider` of `PriceTable.tsx` (lines 48–63). -/
def groupByProvider (prices : List PriceEntry) : List ProviderGroup :=
  prices.foldl insertEntry []

/-- Specification-side helper: append a key if it is not present yet. -/
def insertKey (acc : List String) (k : String) : List String :=
  if k ∈ acc then acc else acc ++ [k]

/-- Specification-side helper: the keys of a list in first-occurrence order
(used to state the group-ordering property of the spec). -/
def firstKeys (ks : List String) : List String := ks.foldl insertKey []

theorem insertEntry_map_key (e : PriceEntry) (gs : List ProviderGroup) :
    (insertEntry gs e).map ProviderGroup.key
      = insertKey (gs.map ProviderGroup.key) (groupKey e) := by
  induction gs with
  | nil => simp [insertEntry, insertKey, ProviderGroup.key, groupKey]
  | cons g gs ih =>
    by_cases hk : g.key = groupKey e
    · have hmem : groupKey e ∈ g.key :: gs.map ProviderGroup.key := by
        rw [← hk]
        exact List.mem_cons_self _ _
      have hkey2 : (if g.models.length < 4 then { g with models := g.models ++ [e] }
          else g).key = g.key := by
        split <;> rfl
      simp only [insertEntry, if_pos hk, List.map_cons, hkey2]
      rw [insertKey, if_pos hmem]
    · simp only [insertEntry, if_neg hk, List.map_cons, ih, insertKey]
      by_cases hm : groupKey e ∈ gs.map ProviderGroup.key
      · rw [if_pos hm, if_pos (List.mem_cons_of_mem _ hm)]
      · rw [if_neg hm, if_neg (by
          rw [List.mem_cons]
          rintro (h | h)
          · exact hk h.symm
          · exact hm h)]
        rw [List.cons_append]

theorem insertKey_nodup {acc : List String} (h : acc.Nodup) (k : String) :
    (insertKey acc k).Nodup := by
  unfold insertKey
  split
  · exact h
  · case isFalse hm =>
      simp only [List.nodup_append, List.nodup_cons, List.not_mem_nil, not_false_iff,
        List.nodup_nil, and_true, true_and, h]
      intro a ha hb
      simp only [List.mem_singleton] at hb
      exact hm (hb ▸ ha)

theorem mem_insertKey_of_mem {acc : List String} {x : String} (k : String)
    (h : x ∈ acc) : x ∈ insertKey acc k := by
  unfold insertKey
  split
  · exact h
  · exact List.mem_append_left _ h

theorem self_mem_insertKey (acc : List String) (k : String) : k ∈ insertKey acc k := by
  unfold insertKey
  split
  · assumption
  · exact List.mem_append_right _ (List.mem_singleton.2 rfl)

theorem insertEntry_models (e : PriceEntry) :
    ∀ (gs : List ProviderGroup) (done : List PriceEntry),
      (gs.map ProviderGroup.key).Nodup →
      (∀ x ∈ done, groupKey x = groupKey e → groupKey e ∈ gs.map ProviderGroup.key) →
      (∀ g ∈ gs, g.models = (done.filter (fun x => groupKey x == g.key)).take 4) →
      ∀ g' ∈ insertEntry gs e,
        g'.models = (((done ++ [e]).filter (fun x => groupKey x == g'.key)).take 4)
  | [], done, _, hdone, _, g', hg' => by
    rw [insertEntry] at hg'
    rw [List.mem_singleton] at hg'
    subst hg'
    show [e] = ((done ++ [e]).filter (fun x => groupKey x == groupKey e)).take 4
    have hnil : done.filter (fun x => groupKey x == groupKey e) = [] := by
      rw [List.filter_eq_nil_iff]
      intro x hx
      simp only [beq_iff_eq]
      intro hxe
      exact absurd (hdone x hx hxe) (List.not_mem_nil _)
    rw [List.filter_append, hnil, List.nil_append]
    simp [List.filter]
  | g :: gs, done, hnodup, hdone, hmodels, g', hg' => by
    rw [List.map_cons, List.nodup_cons] at hnodup
    by_cases hk : g.key = groupKey e
    · rw [insertEntry, if_pos hk] at hg'
      rw [List.mem_cons] at hg'
      rcases hg' with hg' | hg'
      · -- the updated group
        subst hg'
        have hold : g.models = (done.filter (fun x => groupKey x == g.key)).take 4 :=
          hmodels g (List.mem_cons_self _ _)
        have hfe : ((fun x => groupKey x == g.key) e) = true := by
          simp [beq_iff_eq, hk.symm]
        by_cases hlen : g.models.length < 4
        · rw [if_pos hlen]
          have hkeep : ({ g with models := g.models ++ [e] } : ProviderGroup).key = g.key := rfl
          rw [hkeep]
          have hflen : (done.filter (fun x => groupKey x == g.key)).length < 4 := by
            by_contra hge
            push_neg at hge
            rw [hold, List.length_take] at hlen
            omega
          have htake : (done.filter (fun x => groupKey x == g.key)).take 4
              = done.filter (fun x => groupKey x == g.key) :=
            List.take_of_length_le (le_of_lt hflen)
          rw [List.filter_append]
          rw [show ([e].filter (fun x => groupKey x == g.key)) = [e] by simp [List.filter, hfe]]
          rw [List.take_of_length_le (by
            rw [List.length_append, List.length_singleton]
            omega)]
          rw [hold, htake]
        · rw [if_neg hlen]
          have hflen : 4 ≤ (done.filter (fun x => groupKey x == g.key)).length := by
            by_contra hlt
            push_neg at hlt
            rw [hold, List.length_take] at hlen
            omega
          rw [List.filter_append, List.take_append_eq_append_take,
            show (4 - (done.filter (fun x => groupKey x == g.key)).length) = 0 by omega,
            List.take_zero, List.append_nil]
          exact hold
      · -- an untouched later group
        have hne : groupKey e ≠ g'.key := by
          intro hcontra
          exact hnodup.1 (hk ▸ hcontra ▸ List.mem_map_of_mem ProviderGroup.key hg')
        have hfilter : ((done ++ [e]).filter (fun x => groupKey x == g'.key))
            = done.filter (fun x => groupKey x == g'.key) := by
          rw [List.filter_append,
            show ([e].filter (fun x => groupKey x == g'.key)) = [] by
              simp [List.filter_cons, beq_iff_eq, hne],
            List.append_nil]
        rw [hfilter]
        exact hmodels g' (List.mem_cons_of_mem _ hg')
    · rw [insertEntry, if_neg hk] at hg'
      rw [List.mem_cons] at hg'
      rcases hg' with hg' | hg'
      · subst hg'
        have hne : groupKey e ≠ g'.key := fun hcontra => hk hcontra.symm
        rw [List.filter_append,
          show ([e].filter (fun x => groupKey x == g'.key)) = [] by
            simp [List.filter_cons, beq_iff_eq, hne],
          List.append_nil]
        exact hmodels g' (List.mem_cons_self _ _)
      · refine insertEntry_models e gs done hnodup.2 ?_ ?_ g' hg'
        · intro x hx hxe
          rcases List.mem_cons.1 (hdone x hx hxe) with h | h
          · exact absurd h.symm hk
          · exact h
        · intro g'' hg''
          exact hmodels g'' (List.mem_cons_of_mem _ hg'')

/-- The loop invariant of `groupByProvider`: keys are the first-occurrence
keys of the processed prefix, keys are distinct, every processed entry's key
has a group, and each group holds the first four matching entries. -/
def GroupInv (done : List PriceEntry) (gs : List ProviderGroup) : Prop :=
  gs.map ProviderGroup.key = firstKeys (done.map groupKey) ∧
  (gs.map ProviderGroup.key).Nodup ∧
  (∀ x ∈ done, groupKey x ∈ gs.map ProviderGroup.key) ∧
  (∀ g ∈ gs, g.models = (done.filter (fun x => groupKey x == g.key)).take 4)

theorem groupInv_step {done : List PriceEntry} {gs : List ProviderGroup}
    (h : GroupInv done gs) (e : PriceEntry) :
    GroupInv (done ++ [e]) (insertEntry gs e) := by
  obtain ⟨h1, h2, h3, h4⟩ := h
  refine ⟨?_, ?_, ?_, ?_⟩
  · rw [insertEntry_map_key, h1, List.map_append, List.map_singleton]
    simp [firstKeys, List.foldl_append]
  · rw [insertEntry_map_key]
    exact insertKey_nodup h2 _
  · intro x hx
    rw [insertEntry_map_key]
    rcases List.mem_append.1 hx with hx | hx
    · exact mem_insertKey_of_mem _ (h3 x hx)
    · rw [List.mem_singleton] at hx
      subst hx
      exact self_mem_insertKey _ _
  · exact insertEntry_models e gs done h2 (fun x hx hxe => hxe ▸ h3 x hx) h4

theorem groupInv_foldl :
    ∀ (rest done : List PriceEntry) (gs : List ProviderGroup),
      GroupInv done gs → GroupInv (done ++ rest) (rest.foldl insertEntry gs)
  | [], done, gs, h => by simpa using h
  | e :: rest, done, gs, h => by
    rw [List.foldl_cons, show done ++ e :: rest = (done ++ [e]) ++ rest by simp]
    exact groupInv_foldl rest (done ++ [e]) (insertEntry gs e) (groupInv_step h e)

theorem groupByProvider_inv (prices : List PriceEntry) :
    GroupInv prices (groupByProvider prices) := by
  have h0 : GroupInv [] [] := by
    refine ⟨rfl, List.nodup_nil, ?_, ?_⟩
    · intro x hx
      exact absurd hx (List.not_mem_nil _)
    · intro g hg
      exact absurd hg (List.not_mem_nil _)
  simpa using groupInv_foldl prices [] [] h0

/-- Every entry stored in a group's `models` carries that group's key. -/
theorem mem_models_key {prices : List PriceEntry} {g : ProviderGroup}
    (hg : g ∈ groupByProvider prices) {x : PriceEntry} (hx : x ∈ g.models) :
    groupKey x = g.key := by
  obtain ⟨_, _, _, h4⟩ := groupByProvider_inv prices
  rw [h4 g hg] at hx
  have hx' := List.mem_of_mem_take hx
  have := (List.mem_filter.1 hx').2
  simpa [beq_iff_eq] using this

/-! ## Claim theorems: grouping -/

/-- C5: `groupByProvider` keeps at most 4 records per group — exactly the
first 4 input records bearing the group's key, in input order — and lists the
groups in first-occurrence order of their keys. -/
theorem groupByProvider_truncates_and_orders (prices : List PriceEntry) :
    ((groupByProvider prices).map ProviderGroup.key = firstKeys (prices.map groupKey)) ∧
    ∀ g ∈ groupByProvider prices,
      g.models.length ≤ 4 ∧
      g.models = (prices.filter (fun x => groupKey x == g.key)).take 4 := by
  obtain ⟨h1, _, _, h4⟩ := groupByProvider_inv prices
  refine ⟨h1, fun g hg => ⟨?_, h4 g hg⟩⟩
  rw [h4 g hg, List.length_take]
  omega

/-- A demonstration record used to instantiate the grouping theorems. -/
def demoEntry (id country provider : String) : PriceEntry :=
  { _id := id, country := country, currency := "€", provider := provider,
    pricing_model_name := "P", price_kWh := 1,
    monthly_subscription_price := none, yearly_subscription_price := none }

def demoPrices : List PriceEntry :=
  [demoEntry "1" "DE" "IONITY", demoEntry "2" "DE" "IONITY", demoEntry "3" "FR" "Tesla",
   demoEntry "4" "DE" "IONITY", demoEntry "5" "DE" "IONITY", demoEntry "6" "DE" "IONITY"]

def demoGroup : ProviderGroup :=
  { country := "DE", provider := "IONITY",
    models := [demoEntry "1" "DE" "IONITY", demoEntry "2" "DE" "IONITY",
      demoEntry "4" "DE" "IONITY", demoEntry "5" "DE" "IONITY"] }

theorem groupByProvider_truncates_and_orders_witness :
    ((groupByProvider demoPrices).map ProviderGroup.key = firstKeys (demoPrices.map groupKey)) ∧
    demoGroup.models.length ≤ 4 ∧
    demoGroup.models = (demoPrices.filter (fun x => groupKey x == demoGroup.key)).take 4 :=
  ⟨(groupByProvider_truncates_and_orders demoPrices).1,
   ((groupByProvider_truncates_and_orders demoPrices).2 demoGroup (by decide)).1,
   ((groupByProvider_truncates_and_orders demoPrices).2 demoGroup (by decide)).2⟩

/-- C6 (counterexample): the grouping key is the concatenation
`country + "-" + provider`, so the distinct pairs `("A-B", "C")` and
`("A", "B-C")` collide: both records land in one group although their country
fields (and provider fields) differ, refuting the claimed "only if" direction. -/
def collideA : PriceEntry := demoEntry "1" "A-B" "C"

def collideB : PriceEntry := demoEntry "2" "A" "B-C"

theorem groupByProvider_collision_counterexample :
    (∃ g ∈ groupByProvider [collideA, collideB],
      collideA ∈ g.models ∧ collideB ∈ g.models) ∧
    ¬(collideA.country = collideB.country ∧ collideA.provider = collideB.provider) := by
  constructor
  · refine ⟨⟨"A-B", "C", [collideA, collideB]⟩, by decide, by decide, by decide⟩
  · decide

/-- C6 (amended): for any two records stored in groups' models lists, the two
records lie in the same group if and only if their concatenated keys
`country ++ "-" ++ provider` are equal (records beyond a key's 4-record cap
are stored in no group); equality of the country and provider fields is
sufficient for key equality, but (per the counterexample) not necessary. -/
theorem groupByProvider_key_equality (prices : List PriceEntry)
    (g1 g2 : ProviderGroup)
    (hg1 : g1 ∈ groupByProvider prices) (hg2 : g2 ∈ groupByProvider prices)
    (e1 e2 : PriceEntry) (h1 : e1 ∈ g1.models) (h2 : e2 ∈ g2.models) :
    (g1 = g2 ↔ groupKey e1 = groupKey e2) ∧
    (e1.country = e2.country ∧ e1.provider = e2.provider → groupKey e1 = groupKey e2) := by
  have hk1 : groupKey e1 = g1.key := mem_models_key hg1 h1
  have hk2 : groupKey e2 = g2.key := mem_models_key hg2 h2
  constructor
  · constructor
    · intro hgg
      rw [hk1, hk2, hgg]
    · intro hkk
      obtain ⟨_, hnodup, _, _⟩ := groupByProvider_inv prices
      exact List.inj_on_of_nodup_map hnodup hg1 hg2 (by rw [← hk1, ← hk2, hkk])
  · intro ⟨hc, hp⟩
    rw [groupKey, groupKey, hc, hp]

theorem groupByProvider_key_equality_witness :
    ((⟨"A-B", "C", [collideA, collideB]⟩ : ProviderGroup)
        = ⟨"A-B", "C", [collideA, collideB]⟩ ↔ groupKey collideA = groupKey collideB) ∧
    (collideA.country = collideB.country ∧ collideA.provider = collideB.provider →
      groupKey collideA = groupKey collideB) :=
  groupByProvider_key_equality [collideA, collideB]
    ⟨"A-B", "C", [collideA, collideB]⟩ ⟨"A-B", "C", [collideA, collideB]⟩
    (by decide) (by decide) collideA collideB (by decide) (by decide)

/-! ## The single-plan comparison pipeline (`power365Prices`, `PriceComparison.tsx` 148–158) -/

/-- A normalized price (`interface CountryPrice` in `PriceComparison.tsx`). -/
structure CountryPrice where
  country : String
  priceEUR : ℚ
  originalPrice : ℚ
  currency : String
deriving DecidableEq, Repr

/-- One insertion step of a stable ascending insertion sort by `priceEUR`:
the new element goes before every element it does not strictly exceed. -/
def insertByPrice (a : CountryPrice) : List CountryPrice → List CountryPrice
  | [] => [a]
  | b :: bs => if b.priceEUR < a.priceEUR then b :: insertByPrice a bs else a :: b :: bs

/-- Model of `.sort((a, b) => a.priceEUR - b.priceEUR)` at line 157:
`Array.prototype.sort` is required (ES2019) to be stable and to order by the
comparator, which this stable insertion sort realises extensionally. -/
def sortByPriceEUR (l : List CountryPrice) : List CountryPrice := l.foldr insertByPrice []

/-- The filter/map stage of the `power365Prices` pipeline (lines 149–156):
keep `"IONITY Power 365"` records and normalize them, converting only when the
exchange-rate table has arrived. -/
def power365Unsorted (pricesData : List PriceEntry)
    (exchangeRates : Option ExchangeRates) : List CountryPrice :=
  (pricesData.filter (fun p => p.pricing_model_name == "IONITY Power 365")).map (fun p =>
    { country := p.country
      priceEUR := match exchangeRates with
        | some rates => PriceComparison.convertToEUR p.price_kWh p.currency rates
        | none => p.price_kWh
      originalPrice := p.price_kWh
      currency := p.currency })

/-- `power365Prices` (`PriceComparison.tsx` lines 148–158). -/
def power365Prices (pricesData : List PriceEntry)
    (exchangeRates : Option ExchangeRates) : List CountryPrice :=
  sortByPriceEUR (power365Unsorted pricesData exchangeRates)

theorem mem_insertByPrice {x a : CountryPrice} :
    ∀ l : List CountryPrice, x ∈ insertByPrice a l ↔ x = a ∨ x ∈ l
  | [] => by simp [insertByPrice]
  | b :: bs => by
    rw [insertByPrice]
    split
    · rw [List.mem_cons, mem_insertByPrice bs, List.mem_cons]
      tauto
    · rw [List.mem_cons, List.mem_cons]

theorem pairwise_insertByPrice {a : CountryPrice} :
    ∀ {l : List CountryPrice},
      l.Pairwise (fun x y => x.priceEUR ≤ y.priceEUR) →
      (insertByPrice a l).Pairwise (fun x y => x.priceEUR ≤ y.priceEUR)
  | [], _ => by simp [insertByPrice]
  | b :: bs, h => by
    rw [List.pairwise_cons] at h
    rw [insertByPrice]
    split
    · case isTrue hlt =>
      rw [List.pairwise_cons]
      refine ⟨?_, pairwise_insertByPrice h.2⟩
      intro y hy
      rcases (mem_insertByPrice bs).1 hy with rfl | hy
      · exact le_of_lt hlt
      · exact h.1 y hy
    · case isFalse hge =>
      rw [List.pairwise_cons]
      refine ⟨?_, List.pairwise_cons.2 h⟩
      intro y hy
      rcases List.mem_cons.1 hy with rfl | hy
      · exact le_of_not_lt hge
      · exact le_trans (le_of_not_lt hge) (h.1 y hy)

theorem pairwise_sortByPriceEUR :
    ∀ l : List CountryPrice,
      (sortByPriceEUR l).Pairwise (fun x y => x.priceEUR ≤ y.priceEUR)
  | [] => by simp [sortByPriceEUR]
  | a :: l => pairwise_insertByPrice (pairwise_sortByPriceEUR l)

theorem filter_insertByPrice (v : ℚ) (a : CountryPrice) :
    ∀ l : List CountryPrice,
      (insertByPrice a l).filter (fun p => p.priceEUR == v)
        = if a.priceEUR == v then a :: l.filter (fun p => p.priceEUR == v)
          else l.filter (fun p => p.priceEUR == v)
  | [] => by simp [insertByPrice, List.filter_cons]
  | b :: bs => by
    rw [insertByPrice]
    split
    · case isTrue hlt =>
      rw [List.filter_cons, filter_insertByPrice v a bs]
      by_cases hb : b.priceEUR = v
      · have ha : ¬ a.priceEUR = v := by
          intro hav
          rw [hb, hav] at hlt
          exact lt_irrefl v hlt
        simp [List.filter_cons, beq_iff_eq, hb, ha]
      · simp [List.filter_cons, beq_iff_eq, hb]
    · case isFalse hge =>
      simp [List.filter_cons]

theorem filter_sortByPriceEUR (v : ℚ) :
    ∀ l : List CountryPrice,
      (sortByPriceEUR l).filter (fun p => p.priceEUR == v)
        = l.filter (fun p => p.priceEUR == v)
  | [] => rfl
  | a :: l => by
    show ((insertByPrice a (sortByPriceEUR l)).filter (fun p => p.priceEUR == v))
      = (a :: l).filter (fun p => p.priceEUR == v)
    rw [filter_insertByPrice v a (sortByPriceEUR l), filter_sortByPriceEUR v l, List.filter_cons]

/-- C7: the single-plan comparison output `power365Prices` is sorted ascending
by the normalized amount `priceEUR`, and the sort is stable: for every value
`v`, the subsequence of records with normalized amount `v` is exactly the one
of the unsorted filter/map stage, i.e. records with equal normalized amounts
keep their original relative order. -/
theorem power365Prices_sorted_stable (pricesData : List PriceEntry)
    (exchangeRates : Option ExchangeRates) :
    (power365Prices pricesData exchangeRates).Pairwise
      (fun a b => a.priceEUR ≤ b.priceEUR) ∧
    ∀ v : ℚ,
      (power365Prices pricesData exchangeRates).filter (fun p => p.priceEUR == v)
        = (power365Unsorted pricesData exchangeRates).filter (fun p => p.priceEUR == v) :=
  ⟨pairwise_sortByPriceEUR _, fun v => filter_sortByPriceEUR v _⟩

/-! ## JavaScript numbers and `parseFloat` -/

/-- The result of a JavaScript numeric computation: a finite (exact) value or
one of the IEEE special values that `parseFloat` can produce. -/
inductive JsNum where
  | nan : JsNum
  | posInf : JsNum
  | negInf : JsNum
  | finite : ℚ → JsNum
deriving DecidableEq, Repr

/-- `isNaN(x)`. -/
def JsNum.isNaN : JsNum → Bool
  | nan => true
  | _ => false

/-- `x > 0` under JavaScript comparison semantics: false for `NaN` and
`-Infinity`, true for `Infinity`. -/
def JsNum.gtZero : JsNum → Bool
  | nan => false
  | posInf => true
  | negInf => false
  | finite q => decide (0 < q)

/-- The natural number denoted by a list of decimal digit characters. -/
def digitsToNat (ds : List Char) : Nat :=
  ds.foldl (fun acc c => 10 * acc + (c.toNat - 48)) 0

/-- The exact rational `sign * digits * 10 ^ (e - fracLen)`, assembled with
`mkRat` from integer arithmetic only, so that concrete parses evaluate inside
`decide`. -/
def scaledRat (sign : Int) (digits : Nat) (fracLen : Nat) (e : Int) : ℚ :=
  if 0 ≤ e then mkRat (sign * digits * (10 ^ e.toNat)) (10 ^ fracLen)
  else mkRat (sign * digits) (10 ^ fracLen * 10 ^ (-e).toNat)

/-- The value of a well-formed exponent part at the given suffix, `0` when
none follows (`parseFloat` keeps the longest valid literal prefix, so an
`e` not followed by digits is simply not part of the number). -/
def expValue : List Char → Int
  | [] => 0
  | c :: rest =>
    if c = 'e' ∨ c = 'E' then
      match rest with
      | '+' :: ds => if ds.takeWhile Char.isDigit = [] then 0
          else (digitsToNat (ds.takeWhile Char.isDigit) : Int)
      | '-' :: ds => if ds.takeWhile Char.isDigit = [] then 0
          else -(digitsToNat (ds.takeWhile Char.isDigit) : Int)
      | ds => if ds.takeWhile Char.isDigit = [] then 0
          else (digitsToNat (ds.takeWhile Char.isDigit) : Int)
    else 0

/-- Model of JavaScript `parseFloat`: skip leading white space, read an
optional sign, then the longest prefix matching
`Infinity | digits [. digits] [exponent] | . digits [exponent]`;
`NaN` when no prefix matches.  Values are exact rationals; IEEE rounding of
the decimal literal to a double is not modelled. -/
def parseFloat (s : String) : JsNum :=
  let l := s.toList.dropWhile isJsWhitespace
  let sign : Int := match l with
    | '-' :: _ => -1
    | _ => 1
  let l1 : List Char := match l with
    | '+' :: t => t
    | '-' :: t => t
    | t => t
  if l1.take 8 = "Infinity".toList then
    if sign = 1 then JsNum.posInf else JsNum.negInf
  else
    let intDs := l1.takeWhile Char.isDigit
    let r1 := l1.dropWhile Char.isDigit
    let fracDs : List Char := match r1 with
      | '.' :: t => t.takeWhile Char.isDigit
      | _ => []
    let r2 : List Char := match r1 with
      | '.' :: t => t.dropWhile Char.isDigit
      | _ => r1
    if intDs = [] ∧ fracDs = [] then JsNum.nan
    else JsNum.finite (scaledRat sign (digitsToNat (intDs ++ fracDs)) fracDs.length (expValue r2))

/-! ## Household dataset loader (`fetchHouseholdPrices`, `PriceComparison.tsx` 43–98) -/

/-- A parsed household reference price (`interface HouseholdPrice`); the price
carries the raw `parseFloat` result the code stores. -/
structure HouseholdPrice where
  country : String
  priceEUR : JsNum
deriving DecidableEq, Repr

/-- The loop of `parseCSVLine` (lines 47–65): a double quote toggles
`inQuotes` and is dropped; a comma outside quotes ends the field; each field
is trimmed when pushed, and the final field is pushed after the loop. -/
def parseCSVLineAux : List Char → List Char → Bool → List String → List String
  | [], current, _, result => result ++ [jsTrim ⟨current⟩]
  | c :: rest, current, inQuotes, result =>
    if c == '"' then parseCSVLineAux rest current (!inQuotes) result
    else if c == ',' && !inQuotes then
      parseCSVLineAux rest [] inQuotes (result ++ [jsTrim ⟨current⟩])
    else parseCSVLineAux rest (current ++ [c]) inQuotes result

/-- `parseCSVLine` (lines 47–65). -/
def parseCSVLine (line : String) : List String :=
  parseCSVLineAux line.toList [] false []

/-- Prefix test on character lists (spelled out to keep everything
kernel-evaluable). -/
def isPrefixList : List Char → List Char → Bool
  | [], _ => true
  | _ :: _, [] => false
  | a :: as, b :: bs => a == b && isPrefixList as bs

/-- Substring test on character lists. -/
def containsSub : List Char → List Char → Bool
  | [], sub => isPrefixList sub []
  | l@(_ :: t), sub => isPrefixList sub l || containsSub t sub

/-- Model of JavaScript `String.prototype.includes`. -/
def jsIncludes (s sub : String) : Bool := containsSub s.toList sub.toList

/-- The CSV country-name alias table (lines 71–74). -/
def countryMap : List (String × String) :=
  [("Czechia", "Czech Republic"), ("North Macedonia", "Macedonia")]

/-- The body of the row loop of `fetchHouseholdPrices` (lines 76–95): the
record pushed for one line, if any — blank lines, short rows, aggregate
regions and rows failing `!isNaN(price) && price > 0` yield nothing; country
names are renamed through `countryMap` before the push. -/
def processLine (line : String) : Option HouseholdPrice :=
  if jsTrim line = "" then none
  else
    let columns := parseCSVLine line
    if columns.length < 11 then none
    else
      let country := columns.getD 8 ""
      let priceStr := columns.getD 10 ""
      if jsIncludes country "Euro area" || jsIncludes country "European Union" then none
      else
        let country2 := (countryMap.lookup country).getD country
        let price := parseFloat priceStr
        if !price.isNaN && price.gtZero then some { country := country2, priceEUR := price }
        else none

/-- The splitting loop of JavaScript `data.split('\n')`: fields between
newline separators, in order, keeping empty fragments. -/
def splitLinesAux : List Char → List Char → List String
  | [], current => [⟨current⟩]
  | c :: rest, current =>
    if c == '\n' then (⟨current⟩ : String) :: splitLinesAux rest []
    else splitLinesAux rest (current ++ [c])

/-- Model of `data.split('\n')` (line 67). -/
def jsSplitNewline (s : String) : List String := splitLinesAux s.toList []

/-- The pure parsing core of `fetchHouseholdPrices` (lines 43–98): the fetched
text is split on newlines, the header line dropped, and each remaining line
processed in order (the `axios` fetch itself is an external collaborator). -/
def fetchHouseholdPrices (data : String) : List HouseholdPrice :=
  ((jsSplitNewline data).drop 1).filterMap processLine

theorem processLine_some {line : String} {hp : HouseholdPrice}
    (h : processLine line = some hp) :
    hp.priceEUR.isNaN = false ∧ hp.priceEUR.gtZero = true := by
  simp only [processLine] at h
  split at h
  · exact absurd h (by simp)
  · split at h
    · exact absurd h (by simp)
    · split at h
      · exact absurd h (by simp)
      · split at h
        · case isTrue hcond =>
          rw [Option.some.injEq] at h
          subst h
          simp only [Bool.and_eq_true, Bool.not_eq_true'] at hcond
          exact ⟨hcond.1, hcond.2⟩
        · exact absurd h (by simp)

/-- C8 (amended): every record the household dataset parser outputs has a
price that is not NaN and compares strictly greater than zero under JavaScript
semantics (a test that `Infinity` also passes); rows whose price field is
non-numeric, zero or negative are silently dropped. -/
theorem fetchHouseholdPrices_positive (data : String) (hp : HouseholdPrice)
    (h : hp ∈ fetchHouseholdPrices data) :
    hp.priceEUR.isNaN = false ∧ hp.priceEUR.gtZero = true := by
  obtain ⟨line, _, hsome⟩ := List.mem_filterMap.1 h
  exact processLine_some hsome

theorem fetchHouseholdPrices_positive_witness :
    ({ country := "Atlantis", priceEUR := JsNum.finite (mkRat 1 4) }
      : HouseholdPrice).priceEUR.isNaN = false ∧
    ({ country := "Atlantis", priceEUR := JsNum.finite (mkRat 1 4) }
      : HouseholdPrice).priceEUR.gtZero = true :=
  fetchHouseholdPrices_positive "h\nx,x,x,x,x,x,x,x,Atlantis,x,0.25" _ (by decide)

/-- C8 (counterexample): a row whose price field is `"Infinity"` parses to the
non-finite value `Infinity`, which passes `!isNaN(price) && price > 0`, so the
row is accepted rather than dropped — the parser does not require a *finite*
positive price. -/
theorem fetchHouseholdPrices_infinity_counterexample :
    fetchHouseholdPrices "h\nx,x,x,x,x,x,x,x,Atlantis,x,Infinity"
      = [{ country := "Atlantis", priceEUR := JsNum.posInf }] := by decide

/-- The dataset used to exercise every branch of the loader: a header, the
quoted France/Germany row, an aggregate-region row, a Czechia row, a 9-field
row, a North Macedonia row, a non-numeric price, and a negative price. -/
def demoCSV : String :=
  "freq,product,nrg_cons,unit,tax,currency,geo,TIME_PERIOD,geo_name,obs_flag,OBS_VALUE\n" ++
  "\"France\",\"\",\"\",\"\",\"\",\"\",\"\",\"\",\"Germany\",\"\",\"0.25\"\n" ++
  "a,a,a,a,a,a,a,a,Euro area – 19 countries,a,0.5\n" ++
  "a,a,a,a,a,a,a,a,Czechia,a,0.18\n" ++
  "a,a,a,a,a,a,a,a,a\n" ++
  "a,a,a,a,a,a,a,a,North Macedonia,a,0.3\n" ++
  "a,a,a,a,a,a,a,a,Xland,a,abc\n" ++
  "a,a,a,a,a,a,a,a,Yland,a,-1\n"

/-- C9: the loader discards the header line, splits on commas while keeping
quoted commas as field content and dropping the quote characters, skips rows
with fewer than 11 fields, reads country from field 8 and price from field 10,
excludes `Euro area` / `European Union` rows, and renames `Czechia` and
`North Macedonia`; in particular the quoted France line yields a Germany entry
of 0.25, the Czechia row yields a Czech Republic entry of 0.18, and the
aggregate, 9-field, non-numeric and negative rows are dropped. -/
theorem fetchHouseholdPrices_examples :
    parseCSVLine "\"a,b\",c" = ["a,b", "c"] ∧
    parseCSVLine "\"France\",\"\",\"\",\"\",\"\",\"\",\"\",\"\",\"Germany\",\"\",\"0.25\""
      = ["France", "", "", "", "", "", "", "", "Germany", "", "0.25"] ∧
    fetchHouseholdPrices demoCSV
      = [{ country := "Germany", priceEUR := JsNum.finite (mkRat 1 4) },
         { country := "Czech Republic", priceEUR := JsNum.finite (mkRat 9 50) },
         { country := "Macedonia", priceEUR := JsNum.finite (mkRat 3 10) }] ∧
    mkRat 1 4 = (0.25 : ℚ) ∧ mkRat 9 50 = (0.18 : ℚ) ∧ mkRat 3 10 = (0.3 : ℚ) := by
  refine ⟨by decide, by decide, by decide, ?_, ?_, ?_⟩ <;> norm_num [Rat.mkRat_eq_div]
